import Mathlib

/-!
Verification of the mcoptions Monte Carlo options-pricing engine.

Shallow embedding of the C sources into Lean 4.  64-bit machine words are
modelled as natural numbers reduced modulo 2^64 at every operation that can
overflow; `double` values are modelled by exact rational arithmetic (every
finite IEEE double is a rational, and all the properties verified here are
properties of the ideal field semantics of the code); transcendental
library calls (`exp`, `log`, `sqrt`, `cos`) have no exact rational
semantics and are abstracted as explicitly quantified function parameters,
so every theorem below holds for all interpretations of those calls.
-/

namespace MCPricing

/-- Modulus of 64-bit machine arithmetic. -/
def W64 : ℕ := 2 ^ 64

/-- `rotl` from src/src/version.c: `(x << k) | (x >> (64 - k))` on `uint64_t`. -/
def rotl (x k : ℕ) : ℕ := ((x <<< k) % W64) ||| (x >>> (64 - k))

/-- `mco_rng` (src/include/internal/rng.h): four 64-bit state words. -/
structure Rng where
  s0 : ℕ
  s1 : ℕ
  s2 : ℕ
  s3 : ℕ
deriving DecidableEq, Repr

/-- `mco_rng_next` (src/src/version.c:142): xoshiro256** output and state
update.  Returns the 64-bit output together with the advanced state. -/
def mco_rng_next (r : Rng) : ℕ × Rng :=
  let result := (rotl ((r.s1 * 5) % W64) 7 * 9) % W64
  let t := (r.s1 <<< 17) % W64
  let a2 := r.s2 ^^^ r.s0
  let a3 := r.s3 ^^^ r.s1
  let a1 := r.s1 ^^^ a2
  let a0 := r.s0 ^^^ a3
  let b2 := a2 ^^^ t
  let b3 := rotl a3 45
  (result, ⟨a0, a1, b2, b3⟩)

/-- XOR of two RNG states, wordwise (the accumulator step of the jump). -/
def xorRng (a b : Rng) : Rng :=
  ⟨a.s0 ^^^ b.s0, a.s1 ^^^ b.s1, a.s2 ^^^ b.s2, a.s3 ^^^ b.s3⟩

/-- One word of the jump loop of `mco_rng_jump` (src/src/version.c:251):
for each of the 64 bits of the jump constant, conditionally XOR the current
state into the accumulator, then advance the state. -/
def jumpWord (w : ℕ) (st : Rng × Rng) : Rng × Rng :=
  (List.range 64).foldl
    (fun (p : Rng × Rng) b =>
      (if w.testBit b then xorRng p.1 p.2 else p.1, (mco_rng_next p.2).2))
    st

/-- `mco_rng_jump` (src/src/version.c:251): advance the generator by 2^128
steps using the documented jump polynomial. -/
def mco_rng_jump (r : Rng) : Rng :=
  ([0x180ec6d33cfd0aba, 0xd5a61266f0c9392c, 0xa9582618e03fc9aa,
    0x39abdc4529b1661c].foldl (fun st w => jumpWord w st) (⟨0, 0, 0, 0⟩, r)).1

/-- `splitmix64` (src/src/version.c:119): avalanching mixer used only for
seeding.  Returns the output value and the incremented mixer state. -/
def splitmix64 (state : ℕ) : ℕ × ℕ :=
  let st := (state + 0x9e3779b97f4a7c15) % W64
  let z1 := ((st ^^^ (st >>> 30)) * 0xbf58476d1ce4e5b9) % W64
  let z2 := ((z1 ^^^ (z1 >>> 27)) * 0x94d049bb133111eb) % W64
  (z2 ^^^ (z2 >>> 31), st)

/-- `mco_rng_seed` (src/src/version.c:166): expand a 64-bit seed through
four SplitMix64 calls; if all four words come out zero, force the first
word to 1. -/
def mco_rng_seed (seed : ℕ) : Rng :=
  let p0 := splitmix64 seed
  let p1 := splitmix64 p0.2
  let p2 := splitmix64 p1.2
  let p3 := splitmix64 p2.2
  if p0.1 = 0 ∧ p1.1 = 0 ∧ p2.1 = 0 ∧ p3.1 = 0 then
    ⟨1, p1.1, p2.1, p3.1⟩
  else
    ⟨p0.1, p1.1, p2.1, p3.1⟩

/-- The all-zero (fixed-point) RNG state that seeding must avoid. -/
def rngAllZero (r : Rng) : Prop := r.s0 = 0 ∧ r.s1 = 0 ∧ r.s2 = 0 ∧ r.s3 = 0

instance (r : Rng) : Decidable (rngAllZero r) := by
  unfold rngAllZero; infer_instance

/-- `mco_rng_uniform` (src/src/version.c:192): top 53 bits of a draw mapped
linearly into [0,1).  Exact over ℚ. -/
def mco_rng_uniform (r : Rng) : ℚ × Rng :=
  let p := mco_rng_next r
  (((p.1 >>> 11 : ℕ) : ℚ) / 2 ^ 53, p.2)

/-- `mco_thread_work` (thread_pool.h): per-thread record.  `psum`/`psumSq`
embed the partial sum accumulators of the C struct. -/
structure ThreadWork where
  rng : Rng
  startSim : ℕ
  endSim : ℕ
  psum : ℚ
  psumSq : ℚ
deriving DecidableEq, Repr

/-- Loop body of `mco_thread_work_init` (src/src/methods/thread_pool.c:28):
`k` threads remain, current thread index `i`, current start index `start`,
current RNG `rng`.  Each thread gets `total/num_threads` simulations plus
one if its index is below the remainder; the RNG is jumped between
threads. -/
def workInitGo (simsPer rem : ℕ) : ℕ → ℕ → ℕ → Rng → List ThreadWork
  | 0, _, _, _ => []
  | k + 1, i, start, rng =>
    let count := simsPer + (if i < rem then 1 else 0)
    ⟨rng, start, start + count, 0, 0⟩ ::
      workInitGo simsPer rem k (i + 1) (start + count) (mco_rng_jump rng)

/-- `mco_thread_work_init` (src/src/methods/thread_pool.c:28). -/
def mco_thread_work_init (numThreads : ℕ) (baseRng : Rng) (totalSims : ℕ) :
    List ThreadWork :=
  workInitGo (totalSims / numThreads) (totalSims % numThreads) numThreads 0 0 baseRng

/-- Simulation count of thread `i`: `sims_per_thread + (i < remainder ? 1 : 0)`. -/
def tcount (simsPer rem i : ℕ) : ℕ := simsPer + (if i < rem then 1 else 0)

/-- Sum of the simulation counts of `j` consecutive threads starting at
index `i`. -/
def sumCount (simsPer rem : ℕ) : ℕ → ℕ → ℕ
  | _, 0 => 0
  | i, j + 1 => tcount simsPer rem i + sumCount simsPer rem (i + 1) j

/-- Default work unit used with `List.getD` when indexing work lists. -/
def defaultWork : ThreadWork := ⟨⟨0, 0, 0, 0⟩, 0, 0, 0, 0⟩

/-! ### Sobol sequence (src/unnamed/part_015) -/

/-- `mco_sobol` (src/include/internal/methods/sobol.h): current index,
dimension count, per-dimension integer vector `x`, and per-dimension
direction numbers `v` (fixed after initialization). -/
structure Sobol where
  dim : ℕ
  count : ℕ
  x : ℕ → ℕ
  v : ℕ → ℕ → ℕ

/-- `rightmost_zero` (src/unnamed/part_015:170): position of the rightmost
zero bit, i.e. the number of trailing one bits. -/
def rightmostZero (n : ℕ) : ℕ :=
  if h : n % 2 = 1 then rightmostZero (n / 2) + 1 else 0
termination_by n
decreasing_by
  simp_wf
  omega

/-- State update shared by `mco_sobol_next` and `mco_sobol_skip`
(src/unnamed/part_015:180,196): XOR the direction column indexed by the
rightmost zero bit of the count into the integer vector of every dimension,
then increment the count. -/
def sobolStep (s : Sobol) : Sobol :=
  let c := rightmostZero s.count
  { s with
    x := fun d => if d < s.dim then s.x d ^^^ s.v d c else s.x d
    count := s.count + 1 }

/-- `mco_sobol_next` (src/unnamed/part_015:180): advance the state and
report the new point, each coordinate being the integer vector scaled by
2^-32. -/
def mco_sobol_next (s : Sobol) : (ℕ → ℚ) × Sobol :=
  let s' := sobolStep s
  ((fun d => if d < s.dim then (s'.x d : ℚ) / 2 ^ 32 else 0), s')

/-- `mco_sobol_skip` (src/unnamed/part_015:196): repeat the state update
`n` times without producing points. -/
def mco_sobol_skip (s : Sobol) : ℕ → Sobol
  | 0 => s
  | n + 1 => mco_sobol_skip (sobolStep s) n

/-- `mco_sobol_reset` (src/unnamed/part_015:207): zero the count and the
integer vector of every dimension. -/
def mco_sobol_reset (s : Sobol) : Sobol :=
  { s with count := 0, x := fun d => if d < s.dim then 0 else s.x d }

/-- Making `k + 1` calls to `mco_sobol_next` and keeping the last output
point together with the final state. -/
def sobolNextsLast (s : Sobol) : ℕ → (ℕ → ℚ) × Sobol
  | 0 => mco_sobol_next s
  | k + 1 => sobolNextsLast (mco_sobol_next s).2 k

/-! ### Control-variate accumulator (src/include/internal/rng.h) -/

/-- `mco_cv_stats` (src/include/internal/rng.h:118): five running sums, the
known expectation `E[Z]`, and the sample count. -/
structure CvStats where
  sumX : ℚ
  sumZ : ℚ
  sumXX : ℚ
  sumZZ : ℚ
  sumXZ : ℚ
  ez : ℚ
  n : ℕ
deriving DecidableEq, Repr

/-- `mco_cv_init` (src/include/internal/rng.h:131). -/
def mco_cv_init (ez : ℚ) : CvStats := ⟨0, 0, 0, 0, 0, ez, 0⟩

/-- `mco_cv_add` (src/include/internal/rng.h:145). -/
def mco_cv_add (st : CvStats) (x z : ℚ) : CvStats :=
  { st with
    sumX := st.sumX + x
    sumZ := st.sumZ + z
    sumXX := st.sumXX + x * x
    sumZZ := st.sumZZ + z * z
    sumXZ := st.sumXZ + x * z
    n := st.n + 1 }

/-- Accumulating a whole list of sample pairs via `mco_cv_add`. -/
def mco_cv_addList (st : CvStats) (pairs : List (ℚ × ℚ)) : CvStats :=
  pairs.foldl (fun acc p => mco_cv_add acc p.1 p.2) st

/-- The variance threshold `1e-12` of `mco_cv_estimate`. -/
def cvEps : ℚ := 1 / 10 ^ 12

/-- Sample mean of X held by the accumulator. -/
def cvMeanX (st : CvStats) : ℚ := st.sumX / (st.n : ℚ)

/-- Sample variance of Z held by the accumulator:
`Var(Z) = E[Z²] - E[Z]²` exactly as computed at rng.h:171. -/
def cvVarZ (st : CvStats) : ℚ :=
  st.sumZZ / (st.n : ℚ) - (st.sumZ / (st.n : ℚ)) * (st.sumZ / (st.n : ℚ))

/-- `mco_cv_estimate` (src/include/internal/rng.h:162). -/
def mco_cv_estimate (st : CvStats) : ℚ :=
  if st.n = 0 then 0
  else
    let n : ℚ := (st.n : ℚ)
    let meanX := st.sumX / n
    let meanZ := st.sumZ / n
    let varZ := st.sumZZ / n - meanZ * meanZ
    if varZ < cvEps then meanX
    else
      let covXZ := st.sumXZ / n - meanX * meanZ
      meanX - covXZ / varZ * (meanZ - st.ez)

/-! ### Option types, payoffs, errors, context -/

/-- `mco_option_type` (src/include/mcoptions.h:101). -/
inductive OptType
  | call
  | put
deriving DecidableEq, Repr

/-- `mco_payoff_call` (src/unnamed/part_013:25). -/
def mco_payoff_call (spot strike : ℚ) : ℚ :=
  if strike < spot then spot - strike else 0

/-- `mco_payoff_put` (src/unnamed/part_013:30). -/
def mco_payoff_put (spot strike : ℚ) : ℚ :=
  if spot < strike then strike - spot else 0

/-- `mco_payoff` (src/unnamed/part_013:35). -/
def mco_payoff (spot strike : ℚ) : OptType → ℚ
  | .call => mco_payoff_call spot strike
  | .put => mco_payoff_put spot strike

/-- `mco_error` (src/include/mcoptions.h:461): success = 0, out-of-memory,
invalid-argument, threading-error. -/
inductive McoError
  | ok
  | nomem
  | invalidArg
  | threadErr
deriving DecidableEq, Repr

/-- Numeric value of an `mco_error` (MCO_OK = 0, then in order). -/
def mcoErrorCode : McoError → ℕ
  | .ok => 0
  | .nomem => 1
  | .invalidArg => 2
  | .threadErr => 3

/-- `struct mco_ctx` (src/unnamed/part_010): the simulation context. -/
structure Ctx where
  num_simulations : ℕ
  num_steps : ℕ
  seed : ℕ
  num_threads : ℕ
  antithetic_enabled : Bool
  control_variates_enabled : Bool
  stratified_enabled : Bool
  model : ℕ
  sabr_alpha : ℚ
  sabr_beta : ℚ
  sabr_rho : ℚ
  sabr_nu : ℚ
  rng : Rng
  last_error : McoError
deriving DecidableEq

/-- `mco_get_simulations` (src/src/context.c:71): null context reads 0. -/
def mco_get_simulations : Option Ctx → ℕ
  | some c => c.num_simulations
  | none => 0

/-- `mco_get_steps` (src/src/context.c:83). -/
def mco_get_steps : Option Ctx → ℕ
  | some c => c.num_steps
  | none => 0

/-- `mco_get_seed` (src/src/context.c:96). -/
def mco_get_seed : Option Ctx → ℕ
  | some c => c.seed
  | none => 0

/-- `mco_get_threads` (src/src/context.c:108). -/
def mco_get_threads : Option Ctx → ℕ
  | some c => c.num_threads
  | none => 0

/-- `mco_get_antithetic` (src/src/context.c:124): zero-valued default is
`false` (the C getter returns the int 0). -/
def mco_get_antithetic : Option Ctx → Bool
  | some c => c.antithetic_enabled
  | none => false

/-- `mco_ctx_last_error` (src/src/context.c:133): a null context yields
`MCO_ERR_INVALID_ARG`, not the zero-valued `MCO_OK`. -/
def mco_ctx_last_error : Option Ctx → McoError
  | some c => c.last_error
  | none => .invalidArg

/-! ### GBM model kernel (src/unnamed/part_008, `internal/models/gbm.h`)

The kernel code is arithmetic over doubles plus calls to the math.h
transcendentals `exp` and `sqrt`; only those library calls, which have no
exact rational semantics, are abstracted (as the `RealFuns` parameter
below).  Everything else — the precomputed model constants, the terminal
map, and the stepped path loop — is embedded from the source. -/

/-- Stand-ins for the transcendental math.h library functions called by
the model kernel and the pricers (`exp` for discounting and exponentials,
`log` for the geometric average, `sqrt` for σ√T); they have no exact
rational semantics, so they are quantified over. -/
structure RealFuns where
  exp : ℚ → ℚ
  log : ℚ → ℚ
  sqrt : ℚ → ℚ

/-- Draw function modelling `mco_rng_normal` (src/src/version.c:216),
which produces one standard normal per call via Box-Muller (sqrt, log,
cos of exact uniforms); the transcendental value map is abstracted while
the state consumption stays explicit in the draw function. -/
def NormalDraw : Type := Rng → ℚ × Rng

/-- `mco_gbm` (src/unnamed/part_008): raw inputs plus the precomputed
constants drift = (r − ½σ²)T, diffusion = σ√T, discount = exp(−rT). -/
structure McoGbm where
  spot : ℚ
  rate : ℚ
  volatility : ℚ
  time : ℚ
  drift : ℚ
  diffusion : ℚ
  discount : ℚ

/-- `mco_gbm_init` (src/unnamed/part_008). -/
def mco_gbm_init (R : RealFuns) (spot rate volatility time : ℚ) : McoGbm :=
  { spot := spot
    rate := rate
    volatility := volatility
    time := time
    drift := (rate - 1 / 2 * volatility * volatility) * time
    diffusion := volatility * R.sqrt time
    discount := R.exp (-(rate * time)) }

/-- `mco_gbm_terminal` (src/unnamed/part_008):
S(T) = spot · exp(drift + diffusion·z). -/
def mco_gbm_terminal (R : RealFuns) (model : McoGbm) (z : ℚ) : ℚ :=
  model.spot * R.exp (model.drift + model.diffusion * z)

/-- `mco_gbm_simulate` (src/unnamed/part_008): one normal draw, then the
terminal map; the advanced RNG is returned. -/
def mco_gbm_simulate (R : RealFuns) (normal : NormalDraw) (model : McoGbm)
    (rng : Rng) : ℚ × Rng :=
  let z := normal rng
  (mco_gbm_terminal R model z.1, z.2)

/-- `mco_gbm_path` (src/unnamed/part_008): stepped-model constants
dt = T/num_steps, drift_dt = (r − ½σ²)dt, diffusion_dt = σ√dt,
discount = exp(−rT). -/
structure McoGbmPath where
  spot : ℚ
  dt : ℚ
  drift_dt : ℚ
  diffusion_dt : ℚ
  discount : ℚ
  num_steps : ℕ

/-- `mco_gbm_path_init` (src/unnamed/part_008). -/
def mco_gbm_path_init (R : RealFuns) (spot rate volatility time : ℚ)
    (numSteps : ℕ) : McoGbmPath :=
  { spot := spot
    dt := time / (numSteps : ℚ)
    drift_dt := (rate - 1 / 2 * volatility * volatility) * (time / (numSteps : ℚ))
    diffusion_dt := volatility * R.sqrt (time / (numSteps : ℚ))
    discount := R.exp (-(rate * time))
    num_steps := numSteps }

/-- `mco_gbm_step` (src/unnamed/part_008):
S(t+dt) = S(t) · exp(drift_dt + diffusion_dt·z). -/
def mco_gbm_step (R : RealFuns) (model : McoGbmPath) (currentSpot z : ℚ) : ℚ :=
  currentSpot * R.exp (model.drift_dt + model.diffusion_dt * z)

/-- Loop of `mco_gbm_simulate_path` (src/unnamed/part_008): `k` remaining
steps from current value `cur`, one normal draw per step, returning the
simulated values S(dt)..S(T) in order and the advanced RNG. -/
def gbmPathGo (R : RealFuns) (normal : NormalDraw) (model : McoGbmPath) :
    ℕ → ℚ → Rng → List ℚ × Rng
  | 0, _, rng => ([], rng)
  | k + 1, cur, rng =>
    let z := normal rng
    let nxt := mco_gbm_step R model cur z.1
    let rest := gbmPathGo R normal model k nxt z.2
    (nxt :: rest.1, rest.2)

/-- `mco_gbm_simulate_path` (src/unnamed/part_008): path[0] = spot,
path[i+1] = step(path[i], Zᵢ) for i < num_steps.  The path is exposed as
a function from vertex index to value, with the advanced RNG. -/
def mco_gbm_simulate_path (R : RealFuns) (normal : NormalDraw)
    (model : McoGbmPath) (rng : Rng) : (ℕ → ℚ) × Rng :=
  let tail := gbmPathGo R normal model model.num_steps model.spot rng
  (fun j => if j = 0 then model.spot else tail.1.getD (j - 1) 0, tail.2)

/-- Sum of `f 0 + ... + f (n-1)`, the accumulation pattern of every
`for (i = 0; i < n; ++i) sum += ...` loop in the sources. -/
def sumRange (n : ℕ) (f : ℕ → ℚ) : ℚ := ((List.range n).map f).sum

/-! ### Antithetic variates (src/unnamed/part_009) -/

/-- `mco_antithetic_european_sum` (src/unnamed/part_009:62): one normal
draw per pair, payoff evaluated at +Z and −Z, both summed.  Returns the
sum together with the consumed RNG. -/
def mco_antithetic_european_sum (normal : NormalDraw) (terminal : ℚ → ℚ)
    (strike : ℚ) (ty : OptType) : ℕ → Rng → ℚ × Rng
  | 0, rng => (0, rng)
  | k + 1, rng =>
    let z := normal rng
    let rest := mco_antithetic_european_sum normal terminal strike ty k z.2
    (mco_payoff (terminal z.1) strike ty + mco_payoff (terminal (-z.1)) strike ty
      + rest.1, rest.2)

/-- `mco_antithetic_european` (src/unnamed/part_009:99): `num_sims/2`
pairs, at least one; price is discount times the mean over `2·pairs`
paths. -/
def mco_antithetic_european (normal : NormalDraw) (terminal : ℚ → ℚ)
    (discount : ℚ) (strike : ℚ) (ty : OptType) (numSims : ℕ) (rng : Rng) :
    ℚ × Rng :=
  let numPairs := if numSims / 2 = 0 then 1 else numSims / 2
  let s := mco_antithetic_european_sum normal terminal strike ty numPairs rng
  (discount * (s.1 / (2 * numPairs : ℕ)), s.2)

/-- The i-th value of the normal-draw stream started at `rng`. -/
def normSeq (normal : NormalDraw) (rng : Rng) (i : ℕ) : ℚ :=
  (normal ((fun r => (normal r).2)^[i] rng)).1

/-! ### Thread-pool workers and parallel European
(src/src/methods/thread_pool.c) -/

/-- Payoff accumulation loop of `worker_european_basic`
(src/src/methods/thread_pool.c:64): `n` terminal draws, payoffs summed,
RNG threaded through. -/
def simAccumPayoff (sim : Rng → ℚ × Rng) (strike : ℚ) (ty : OptType) :
    ℕ → Rng → ℚ × Rng
  | 0, rng => (0, rng)
  | k + 1, rng =>
    let p := sim rng
    let rest := simAccumPayoff sim strike ty k p.2
    (mco_payoff p.1 strike ty + rest.1, rest.2)

/-- `worker_european_basic` (src/src/methods/thread_pool.c:64). -/
def worker_european_basic (sim : Rng → ℚ × Rng) (strike : ℚ) (ty : OptType)
    (w : ThreadWork) : ThreadWork :=
  let s := simAccumPayoff sim strike ty (w.endSim - w.startSim) w.rng
  { w with psum := s.1, rng := s.2 }

/-- `worker_european_antithetic` (src/src/methods/thread_pool.c:87): pairs
from the thread's slice, at least one; `end_sim` is rewritten to report
`2·pairs` actually-simulated paths. -/
def worker_european_antithetic (normal : NormalDraw) (terminal : ℚ → ℚ)
    (strike : ℚ) (ty : OptType) (w : ThreadWork) : ThreadWork :=
  let n := w.endSim - w.startSim
  let numPairs := if n / 2 = 0 then 1 else n / 2
  let s := mco_antithetic_european_sum normal terminal strike ty numPairs w.rng
  { w with psum := s.1, rng := s.2, endSim := w.startSim + 2 * numPairs }

/-- `mco_parallel_european` (src/src/methods/thread_pool.c:115): init the
work units, run each worker (workers are independent, so the inline
sequential denotation is the deterministic semantics of the spawn/join),
reduce partial sums in thread order, discount the mean.  Each worker
calls `mco_gbm_init` on its identical by-value parameters, so the model
is hoisted; the final discount is the inline `exp(-rate * time)` of
thread_pool.c:191.  The master RNG inside the context is read-only here:
workers own jumped copies. -/
def mco_parallel_european (R : RealFuns) (normal : NormalDraw) (ctx : Ctx)
    (spot strike rate vol ttm : ℚ) (ty : OptType) : ℚ × Ctx :=
  let work := mco_thread_work_init ctx.num_threads ctx.rng ctx.num_simulations
  let model := mco_gbm_init R spot rate vol ttm
  let done := if ctx.antithetic_enabled then
      work.map (worker_european_antithetic normal (mco_gbm_terminal R model)
        strike ty)
    else
      work.map (worker_european_basic (mco_gbm_simulate R normal model)
        strike ty)
  let totalSum := (done.map (fun w => w.psum)).sum
  let totalPaths := (done.map (fun w => w.endSim - w.startSim)).sum
  (R.exp (-(rate * ttm)) * (totalSum / (totalPaths : ℕ)), ctx)

/-! ### European pricer (src/src/instruments/european.c) -/

/-- `price_european_basic` (src/src/instruments/european.c:26).  The C
loop passes `&ctx->rng`, advancing the context RNG in place; the advanced
RNG is returned alongside the price. -/
def price_european_basic (R : RealFuns) (normal : NormalDraw) (ctx : Ctx)
    (spot strike rate vol ttm : ℚ) (ty : OptType) : ℚ × Rng :=
  let model := mco_gbm_init R spot rate vol ttm
  let s := simAccumPayoff (mco_gbm_simulate R normal model) strike ty
      ctx.num_simulations ctx.rng
  (model.discount * (s.1 / (ctx.num_simulations : ℕ)), s.2)

/-- `mco_price_european` (src/src/instruments/european.c:77): validate,
then dispatch on thread count and the antithetic flag.  The context is
returned alongside the price; the two single-threaded branches advance
the context's master RNG in place (european.c:41 and :62 pass
`&ctx->rng`), the parallel branch leaves it unchanged. -/
def mco_price_european (R : RealFuns) (normal : NormalDraw) (ctx : Ctx)
    (spot strike rate vol ttm : ℚ) (ty : OptType) : ℚ × Ctx :=
  if spot ≤ 0 ∨ strike ≤ 0 ∨ vol < 0 ∨ ttm < 0 then
    (0, { ctx with last_error := .invalidArg })
  else if 1 < ctx.num_threads then
    mco_parallel_european R normal ctx spot strike rate vol ttm ty
  else if ctx.antithetic_enabled then
    let model := mco_gbm_init R spot rate vol ttm
    let p := mco_antithetic_european normal (mco_gbm_terminal R model)
      model.discount strike ty ctx.num_simulations ctx.rng
    (p.1, { ctx with rng := p.2 })
  else
    let p := price_european_basic R normal ctx spot strike rate vol ttm ty
    (p.1, { ctx with rng := p.2 })

/-! ### Digital pricer (src/src/instruments/european.c:152) -/

/-- `mco_digital_type` (src/include/internal/instruments/barrier.h:145). -/
inductive DigitalType
  | cash
  | asset
deriving DecidableEq, Repr

/-- Per-path payoff of `mco_price_digital`: terminal indicator times the
payout (cash) or the terminal itself (asset). -/
def digitalPayoff (sT strike payout : ℚ) (dty : DigitalType) (oty : OptType) : ℚ :=
  let itm : Bool := match oty with
    | .call => strike < sT
    | .put => sT < strike
  if itm then
    match dty with
    | .cash => payout
    | .asset => sT
  else 0

/-- Accumulation loop of `mco_price_digital`
(src/src/instruments/european.c:173). -/
def digitalSum (sim : Rng → ℚ × Rng) (strike payout : ℚ) (dty : DigitalType)
    (oty : OptType) : ℕ → Rng → ℚ × Rng
  | 0, rng => (0, rng)
  | k + 1, rng =>
    let p := sim rng
    let rest := digitalSum sim strike payout dty oty k p.2
    (digitalPayoff p.1 strike payout dty oty + rest.1, rest.2)

/-- `mco_price_digital` (src/src/instruments/european.c:152): no argument
validation; the pricer runs on a private copy of the context's RNG
(`mco_rng rng = ctx->rng` at european.c:171) and never writes the
context. -/
def mco_price_digital (R : RealFuns) (normal : NormalDraw) (ctx : Ctx)
    (spot strike payout rate vol time : ℚ) (dty : DigitalType)
    (oty : OptType) : ℚ × Ctx :=
  let model := mco_gbm_init R spot rate vol time
  let n := ctx.num_simulations
  let s := digitalSum (mco_gbm_simulate R normal model) strike payout dty oty
    n ctx.rng
  (model.discount * (s.1 / (n : ℚ)), ctx)

/-! ### Barrier pricer (src/src/instruments/european.c:343) -/

/-- `mco_barrier_style` (src/include/mcoptions.h:356). -/
inductive BarrierStyle
  | downIn
  | downOut
  | upIn
  | upOut
deriving DecidableEq, Repr

/-- Segment scan of `mco_price_barrier` (src/src/instruments/european.c:384):
for each of the remaining `k` segments starting at vertex `j`, a discrete
endpoint check, then a Brownian-bridge hit draw from the same RNG stream;
the loop breaks on the first hit.  `hitProb s1 s2` is the segment hit
probability; the pricer passes `bridge_hit_prob` with the call's barrier,
volatility and dt bound, mirroring european.c:402. -/
def barrierScan (hitProb : ℚ → ℚ → ℚ) (isUp : Bool) (barrier : ℚ)
    (path : ℕ → ℚ) : ℕ → ℕ → Rng → Bool × Rng
  | 0, _, rng => (false, rng)
  | k + 1, j, rng =>
    let s1 := path j
    let s2 := path (j + 1)
    let discreteHit := if isUp then barrier ≤ s1 ∨ barrier ≤ s2
      else s1 ≤ barrier ∨ s2 ≤ barrier
    if discreteHit then (true, rng)
    else
      let u := mco_rng_uniform rng
      if u.1 < hitProb s1 s2 then (true, u.2)
      else barrierScan hitProb isUp barrier path k (j + 1) u.2

/-- Per-path payoff of `mco_price_barrier`
(src/src/instruments/european.c:409): knock-in pays the vanilla payoff on
a hit, knock-out pays it on no hit and the rebate otherwise. -/
def barrierPayoff (hit : Bool) (terminal strike rebate : ℚ)
    (knockIn : Bool) (oty : OptType) : ℚ :=
  if knockIn then
    if hit then mco_payoff terminal strike oty else 0
  else
    if hit then rebate else mco_payoff terminal strike oty

/-- Path loop of `mco_price_barrier` (src/src/instruments/european.c:377). -/
def barrierSum (pathSim : Rng → (ℕ → ℚ) × Rng) (hitProb : ℚ → ℚ → ℚ)
    (isUp knockIn : Bool) (barrier strike rebate : ℚ) (numSteps : ℕ)
    (oty : OptType) : ℕ → Rng → ℚ × Rng
  | 0, rng => (0, rng)
  | k + 1, rng =>
    let p := pathSim rng
    let hit := barrierScan hitProb isUp barrier p.1 numSteps 0 p.2
    let rest := barrierSum pathSim hitProb isUp knockIn barrier strike rebate
      numSteps oty k hit.2
    (barrierPayoff hit.1 (p.1 numSteps) strike rebate knockIn oty + rest.1,
      rest.2)

/-- `bridge_hit_prob` (src/src/instruments/european.c:311): probability
that the Brownian bridge between two vertices crossed the barrier, with
the early 1/0 returns of the C code; the exponential and logarithms are
the abstract `RealFuns`. -/
def bridge_hit_prob (R : RealFuns) (s1 s2 h vol dt : ℚ) (isUp : Bool) : ℚ :=
  if isUp then
    if h ≤ s1 ∨ h ≤ s2 then 1
    else if s1 ≤ 0 ∨ s2 ≤ 0 then 0
    else if R.log (h / s1) ≤ 0 ∨ R.log (h / s2) ≤ 0 then 1
    else R.exp (-2 * R.log (h / s1) * R.log (h / s2) / (vol * vol * dt))
  else
    if s1 ≤ h ∨ s2 ≤ h then 1
    else if s1 ≤ 0 ∨ s2 ≤ 0 then 0
    else if R.log (s1 / h) ≤ 0 ∨ R.log (s2 / h) ≤ 0 then 1
    else R.exp (-2 * R.log (s1 / h) * R.log (s2 / h) / (vol * vol * dt))

/-- `mco_price_barrier` (src/src/instruments/european.c:343): no numeric
argument validation (only the null-context / zero-step guard); runs on a
private RNG copy (`mco_rng rng = ctx->rng` at european.c:375) and never
writes the context. -/
def mco_price_barrier (R : RealFuns) (normal : NormalDraw) (ctx : Ctx)
    (spot strike barrier rebate rate vol time : ℚ) (numSteps : ℕ)
    (bty : BarrierStyle) (oty : OptType) : ℚ × Ctx :=
  if numSteps = 0 then (0, ctx)
  else
    let model := mco_gbm_path_init R spot rate vol time numSteps
    let dt := time / (numSteps : ℚ)
    let n := ctx.num_simulations
    let isUp := bty = .upIn ∨ bty = .upOut
    let knockIn := bty = .downIn ∨ bty = .upIn
    let s := barrierSum (mco_gbm_simulate_path R normal model)
      (fun s1 s2 => bridge_hit_prob R s1 s2 barrier vol dt (decide isUp))
      (decide isUp) (decide knockIn) barrier strike rebate numSteps oty n ctx.rng
    (model.discount * (s.1 / (n : ℚ)), ctx)

/-! ### Lookback pricer (src/unnamed/part_018) -/

/-- `mco_lookback_strike` (part_011): floating or fixed strike. -/
inductive LookStrike
  | floating
  | fixed
deriving DecidableEq, Repr

/-- Min/max scan of `mco_price_lookback` (src/unnamed/part_018:57): running
minimum and maximum over vertices 1..num_steps, seeded with the initial
vertex. -/
def lookbackMinMax (path : ℕ → ℚ) (numSteps : ℕ) : ℚ × ℚ :=
  (List.range numSteps).foldl
    (fun (mm : ℚ × ℚ) j =>
      let p := path (j + 1)
      (if p < mm.1 then p else mm.1, if mm.2 < p then p else mm.2))
    (path 0, path 0)

/-- Per-path payoff of `mco_price_lookback` (src/unnamed/part_018:66). -/
def mco_lookback_payoff (path : ℕ → ℚ) (numSteps : ℕ) (strike : ℚ)
    (sty : LookStrike) (oty : OptType) : ℚ :=
  let mm := lookbackMinMax path numSteps
  let terminal := path numSteps
  match sty, oty with
  | .floating, .call => terminal - mm.1
  | .floating, .put => mm.2 - terminal
  | .fixed, .call => max (mm.2 - strike) 0
  | .fixed, .put => max (strike - mm.1) 0

/-- Path loop of `mco_price_lookback` (src/unnamed/part_018:53). -/
def lookbackSum (pathSim : Rng → (ℕ → ℚ) × Rng) (strike : ℚ) (numSteps : ℕ)
    (sty : LookStrike) (oty : OptType) : ℕ → Rng → ℚ × Rng
  | 0, rng => (0, rng)
  | k + 1, rng =>
    let p := pathSim rng
    let rest := lookbackSum pathSim strike numSteps sty oty k p.2
    (mco_lookback_payoff p.1 numSteps strike sty oty + rest.1, rest.2)

/-- `mco_price_lookback` (src/unnamed/part_018:25): no numeric argument
validation; private RNG copy (part_018:51); context never written. -/
def mco_price_lookback (R : RealFuns) (normal : NormalDraw) (ctx : Ctx)
    (spot strike rate vol time : ℚ) (numSteps : ℕ) (sty : LookStrike)
    (oty : OptType) : ℚ × Ctx :=
  if numSteps = 0 then (0, ctx)
  else
    let model := mco_gbm_path_init R spot rate vol time numSteps
    let n := ctx.num_simulations
    let s := lookbackSum (mco_gbm_simulate_path R normal model) strike
      numSteps sty oty n ctx.rng
    (model.discount * (s.1 / (n : ℚ)), ctx)

/-! ### Asian pricer (src/unnamed/part_016) -/

/-- `mco_asian_type` (src/include/internal/instruments/asian.h:36). -/
inductive AsianType
  | arithmetic
  | geometric
deriving DecidableEq, Repr

/-- `mco_asian_strike` (src/include/internal/instruments/asian.h:44). -/
inductive AsianStrike
  | fixedStrike
  | floatingStrike
deriving DecidableEq, Repr

/-- Average computation of `mco_price_asian` (src/unnamed/part_016:116):
arithmetic mean over vertices 1..num_obs, or exp of the mean log
(geometric), the transcendentals taken from the abstract `RealFuns`. -/
def asianAverage (R : RealFuns) (path : ℕ → ℚ) (numObs : ℕ)
    (aty : AsianType) : ℚ :=
  match aty with
  | .arithmetic => sumRange numObs (fun j => path (j + 1)) / (numObs : ℚ)
  | .geometric => R.exp (sumRange numObs (fun j => R.log (path (j + 1))) / (numObs : ℚ))

/-- Per-path payoff of `mco_price_asian` (src/unnamed/part_016:133). -/
def asianPayoff (avg terminal strike : ℚ) (sty : AsianStrike)
    (oty : OptType) : ℚ :=
  match sty with
  | .fixedStrike => mco_payoff avg strike oty
  | .floatingStrike =>
    match oty with
    | .call => max (terminal - avg) 0
    | .put => max (avg - terminal) 0

/-- Path loop of `mco_price_asian` (src/unnamed/part_016:111). -/
def asianSum (R : RealFuns) (pathSim : Rng → (ℕ → ℚ) × Rng) (strike : ℚ)
    (numObs : ℕ) (aty : AsianType) (sty : AsianStrike) (oty : OptType) :
    ℕ → Rng → ℚ × Rng
  | 0, rng => (0, rng)
  | k + 1, rng =>
    let p := pathSim rng
    let avg := asianAverage R p.1 numObs aty
    let rest := asianSum R pathSim strike numObs aty sty oty k p.2
    (asianPayoff avg (p.1 numObs) strike sty oty + rest.1, rest.2)

/-- `mco_price_asian` (src/unnamed/part_016:77): zero-observation guard,
then numeric validation setting invalid-argument, then the Monte Carlo
loop on a private RNG copy (part_016:109). -/
def mco_price_asian (R : RealFuns) (normal : NormalDraw) (ctx : Ctx)
    (spot strike rate vol ttm : ℚ) (numObs : ℕ) (aty : AsianType)
    (sty : AsianStrike) (oty : OptType) : ℚ × Ctx :=
  if numObs = 0 then (0, ctx)
  else if spot ≤ 0 ∨ strike ≤ 0 ∨ vol < 0 ∨ ttm < 0 then
    (0, { ctx with last_error := .invalidArg })
  else
    let model := mco_gbm_path_init R spot rate vol ttm numObs
    let n := ctx.num_simulations
    let s := asianSum R (mco_gbm_simulate_path R normal model) strike numObs
      aty sty oty n ctx.rng
    (model.discount * (s.1 / (n : ℚ)), ctx)

/-! ### Least-squares Monte Carlo (src/unnamed/part_014) -/

/-- `MCO_LSM_NUM_BASIS` (src/include/internal/methods/monte_carlo.h:138,
the `internal/methods/lsm.h` header section): three Laguerre basis
functions. -/
def MCO_LSM_NUM_BASIS : ℕ := 3

/-- `mco_lsm_basis` (src/include/internal/methods/monte_carlo.h:181-186):
the basis {1, 1 − x, 1 − 2x + ½x²} of x = S/K, as a triple. -/
def mco_lsm_basis (x : ℚ) : ℚ × ℚ × ℚ :=
  (1, 1 - x, 1 - 2 * x + x ^ 2 / 2)

/-- One row of the augmented 3×4 system `[A'A | A'b]` of
`mco_lsm_regress` (src/unnamed/part_014:50). -/
structure Row4 where
  a : ℚ
  b : ℚ
  c : ℚ
  d : ℚ
deriving DecidableEq, Repr

/-- Row operation of the forward elimination
(src/unnamed/part_014:91): subtract `factor` times the pivot row. -/
def subRow (r p : Row4) (factor : ℚ) : Row4 :=
  ⟨r.a - factor * p.a, r.b - factor * p.b, r.c - factor * p.c,
    r.d - factor * p.d⟩

/-- Singularity threshold `1e-12` of src/unnamed/part_014:82. -/
def gaussEps : ℚ := 1 / 10 ^ 12

/-- Accumulation of the normal equations `A'A` and `A'b`
(src/unnamed/part_014:34) over the list of (basis row, target) samples,
directly as the three augmented rows. -/
def normalEq (samples : List ((ℚ × ℚ × ℚ) × ℚ)) : Row4 × Row4 × Row4 :=
  samples.foldl
    (fun (m : Row4 × Row4 × Row4) s =>
      let b0 := s.1.1
      let b1 := s.1.2.1
      let b2 := s.1.2.2
      let y := s.2
      (⟨m.1.a + b0 * b0, m.1.b + b0 * b1, m.1.c + b0 * b2, m.1.d + b0 * y⟩,
       ⟨m.2.1.a + b1 * b0, m.2.1.b + b1 * b1, m.2.1.c + b1 * b2, m.2.1.d + b1 * y⟩,
       ⟨m.2.2.a + b2 * b0, m.2.2.b + b2 * b1, m.2.2.c + b2 * b2, m.2.2.d + b2 * y⟩))
    (⟨0, 0, 0, 0⟩, ⟨0, 0, 0, 0⟩, ⟨0, 0, 0, 0⟩)

/-- Gaussian elimination with partial pivoting on the 3×4 augmented
system (src/unnamed/part_014:60-106), exact over ℚ.  Returns `none` on
singular-matrix detection (pivot magnitude below `1e-12`). -/
def gauss3 (a0 a1 a2 : Row4) : Option (ℚ × ℚ × ℚ) :=
  let pick1 : ℕ × ℚ := if |a0.a| < |a1.a| then (1, |a1.a|) else (0, |a0.a|)
  let pick2 : ℕ × ℚ := if pick1.2 < |a2.a| then (2, |a2.a|) else pick1
  let sw : Row4 × Row4 × Row4 :=
    if pick2.1 = 1 then (a1, a0, a2)
    else if pick2.1 = 2 then (a2, a1, a0)
    else (a0, a1, a2)
  let r0 := sw.1
  if |r0.a| < gaussEps then none
  else
    let r1 := subRow sw.2.1 r0 (sw.2.1.a / r0.a)
    let r2 := subRow sw.2.2 r0 (sw.2.2.a / r0.a)
    let sw1 : Row4 × Row4 := if |r1.b| < |r2.b| then (r2, r1) else (r1, r2)
    let s1 := sw1.1
    if |s1.b| < gaussEps then none
    else
      let s2 := subRow sw1.2 s1 (sw1.2.b / s1.b)
      if |s2.c| < gaussEps then none
      else
        let c2 := s2.d / s2.c
        let c1 := (s1.d - s1.c * c2) / s1.b
        let c0 := (r0.d - r0.b * c1 - r0.c * c2) / r0.a
        some (c0, c1, c2)

/-- `mco_lsm_regress` (src/unnamed/part_014:24): build the normal
equations over the samples and solve the 3×3 system. -/
def mco_lsm_regress (samples : List ((ℚ × ℚ × ℚ) × ℚ)) :
    Option (ℚ × ℚ × ℚ) :=
  let m := normalEq samples
  gauss3 m.1 m.2.1 m.2.2

/-- The ascending list of in-the-money path indices collected at step `s`
(src/unnamed/part_014:201-218). -/
def lsmItmList (paths : ℕ → ℕ → ℚ) (strike : ℚ) (ty : OptType) (n s : ℕ) :
    List ℕ :=
  (List.range n).filter (fun i => decide (0 < mco_payoff (paths i s) strike ty))

/-- Estimated continuation value of path `i` at step `s` from the
regression coefficients (src/unnamed/part_014:249-252). -/
def lsmCont (paths : ℕ → ℕ → ℚ) (strike : ℚ) (co : ℚ × ℚ × ℚ) (s i : ℕ) : ℚ :=
  co.1 * (mco_lsm_basis (paths i s / strike)).1 +
  co.2.1 * (mco_lsm_basis (paths i s / strike)).2.1 +
  co.2.2 * (mco_lsm_basis (paths i s / strike)).2.2

/-- One backward-induction iteration of `mco_lsm_american` at step `s`
(src/unnamed/part_014:190-260): discount all cash flows by one step,
collect the in-the-money paths, regress the discounted cash flow on the
basis of S/K, and replace the cash flow (and record the exercise step) of
every in-the-money path whose immediate exercise value exceeds the
estimated continuation. -/
def lsmIter (paths : ℕ → ℕ → ℚ) (strike : ℚ) (ty : OptType) (df : ℚ)
    (n s : ℕ) (cf : ℕ → ℚ) (et : ℕ → ℕ) : (ℕ → ℚ) × (ℕ → ℕ) :=
  if (lsmItmList paths strike ty n s).length < MCO_LSM_NUM_BASIS then
    (fun i => cf i * df, et)
  else
    match mco_lsm_regress ((lsmItmList paths strike ty n s).map fun i =>
        (mco_lsm_basis (paths i s / strike), cf i * df)) with
    | none => (fun i => cf i * df, et)
    | some co =>
      (fun i =>
        if i ∈ lsmItmList paths strike ty n s ∧
            lsmCont paths strike co s i < mco_payoff (paths i s) strike ty
        then mco_payoff (paths i s) strike ty
        else cf i * df,
       fun i =>
        if i ∈ lsmItmList paths strike ty n s ∧
            lsmCont paths strike co s i < mco_payoff (paths i s) strike ty
        then s
        else et i)

/-- The backward loop `for (step = num_steps - 1; step >= 1; --step)` of
`mco_lsm_american` (src/unnamed/part_014:190): process steps
`s, s-1, ..., 1`. -/
def lsmLoop (paths : ℕ → ℕ → ℚ) (strike : ℚ) (ty : OptType) (df : ℚ)
    (n : ℕ) : ℕ → (ℕ → ℚ) → (ℕ → ℕ) → (ℕ → ℚ) × (ℕ → ℕ)
  | 0, cf, et => (cf, et)
  | s + 1, cf, et =>
    let p := lsmIter paths strike ty df n (s + 1) cf et
    lsmLoop paths strike ty df n s p.1 p.2

/-- Final cash flows and exercise steps of `mco_lsm_american`: terminal
intrinsic payoffs (exercise step defaulting to `num_steps`), the backward
loop from `num_steps - 1` down to 1, and the final one-step discount of
src/unnamed/part_014:267. -/
def lsmFinal (paths : ℕ → ℕ → ℚ) (strike : ℚ) (ty : OptType) (df : ℚ)
    (n numSteps : ℕ) : (ℕ → ℚ) × (ℕ → ℕ) :=
  let cf0 := fun i => mco_payoff (paths i numSteps) strike ty
  let et0 := fun _ => numSteps
  let p := lsmLoop paths strike ty df n (numSteps - 1) cf0 et0
  (fun i => p.1 i * df, p.2)

/-- Forward path generation of `mco_lsm_american`
(src/unnamed/part_014:153): `n` paths simulated from a private copy of the
context RNG, threading the RNG through. -/
def genPaths (pathSim : Rng → (ℕ → ℚ) × Rng) : ℕ → Rng → List (ℕ → ℚ) × Rng
  | 0, rng => ([], rng)
  | n + 1, rng =>
    let p := pathSim rng
    let rest := genPaths pathSim n p.2
    (p.1 :: rest.1, rest.2)

/-- The path table of `mco_lsm_american` as a function of path index and
step (rows beyond the simulated count read as the zero path). -/
def lsmPathsOf (pathSim : Rng → (ℕ → ℚ) × Rng) (n : ℕ) (rng : Rng) :
    ℕ → ℕ → ℚ :=
  fun i => (genPaths pathSim n rng).1.getD i (fun _ => 0)

/-- `mco_lsm_american` (src/unnamed/part_014:115): per-step discount
`df = exp(-rate * dt)` with `dt = T/num_steps` (part_014:127-128), GBM
paths simulated forward from a private copy of the context RNG
(part_014:153), terminal payoffs, the backward loop, and the final mean.
The context is never written on the success path. -/
def mco_lsm_american (R : RealFuns) (normal : NormalDraw) (ctx : Ctx)
    (spot strike rate volatility ttm : ℚ) (numSteps : ℕ) (ty : OptType) :
    ℚ × Ctx :=
  if numSteps = 0 then (0, ctx)
  else
    let df := R.exp (-(rate * (ttm / (numSteps : ℚ))))
    let model := mco_gbm_path_init R spot rate volatility ttm numSteps
    let n := ctx.num_simulations
    let paths := lsmPathsOf (mco_gbm_simulate_path R normal model) n ctx.rng
    let cf := (lsmFinal paths strike ty df n numSteps).1
    (sumRange n cf / (n : ℚ), ctx)

/-- `mco_price_american` (src/unnamed/part_017:14): numeric validation
setting invalid-argument, zero step count defaulting to 52, then LSM. -/
def mco_price_american (R : RealFuns) (normal : NormalDraw) (ctx : Ctx)
    (spot strike rate vol ttm : ℚ) (numSteps : ℕ) (ty : OptType) :
    ℚ × Ctx :=
  if spot ≤ 0 ∨ strike ≤ 0 ∨ vol < 0 ∨ ttm < 0 then
    (0, { ctx with last_error := .invalidArg })
  else
    mco_lsm_american R normal ctx spot strike rate vol ttm
      (if numSteps = 0 then 52 else numSteps) ty

/-- Equality of two contexts on every field except the last-error slot. -/
def ctxFrame (c c' : Ctx) : Prop :=
  c'.num_simulations = c.num_simulations ∧ c'.num_steps = c.num_steps ∧
  c'.seed = c.seed ∧ c'.num_threads = c.num_threads ∧
  c'.antithetic_enabled = c.antithetic_enabled ∧
  c'.control_variates_enabled = c.control_variates_enabled ∧
  c'.stratified_enabled = c.stratified_enabled ∧ c'.model = c.model ∧
  c'.sabr_alpha = c.sabr_alpha ∧ c'.sabr_beta = c.sabr_beta ∧
  c'.sabr_rho = c.sabr_rho ∧ c'.sabr_nu = c.sabr_nu ∧ c'.rng = c.rng

/-! ### Claim statements as predicates, and concrete instances -/

/-- Work unit `j` produced by `mco_thread_work_init` (out-of-range indices
read the default unit). -/
def workUnit (T : ℕ) (base : Rng) (N j : ℕ) : ThreadWork :=
  (mco_thread_work_init T base N).getD j defaultWork

/-- Claim C1 as a predicate of the thread count, path count and base RNG:
the work units of `mco_thread_work_init` are contiguous half-open ranges,
pairwise disjoint, with union exactly [0, N), and unit `i` carries the base
RNG jumped exactly `i` times. -/
def threadPartitionSpec (T N : ℕ) (base : Rng) : Prop :=
  (mco_thread_work_init T base N).length = T ∧
  (workUnit T base N 0).startSim = 0 ∧
  (∀ j, j + 1 < T →
    (workUnit T base N (j + 1)).startSim = (workUnit T base N j).endSim) ∧
  (workUnit T base N (T - 1)).endSim = N ∧
  (∀ i j, i < j → j < T →
    (workUnit T base N i).endSim ≤ (workUnit T base N j).startSim) ∧
  (∀ m, m < N ↔ ∃ j, j < T ∧ (workUnit T base N j).startSim ≤ m ∧
    m < (workUnit T base N j).endSim) ∧
  (∀ j, j < T → (workUnit T base N j).rng = mco_rng_jump^[j] base)

/-- Claim C2 (amended) as a predicate: the European, Asian and American
pricers reject invalid numeric arguments by setting invalid-argument and
returning zero, while the digital, barrier and lookback pricers perform no
numeric validation and return the context untouched. -/
def validationSpec (R : RealFuns) (normal : NormalDraw) (ctx : Ctx)
    (spot strike payout barrier rebate rate vol ttm : ℚ)
    (numObs numSteps : ℕ) (dty : DigitalType) (bty : BarrierStyle)
    (sty : LookStrike) (aty : AsianType) (asty : AsianStrike)
    (oty : OptType) : Prop :=
  mco_price_european R normal ctx spot strike rate vol ttm oty
      = (0, { ctx with last_error := .invalidArg }) ∧
  mco_price_asian R normal ctx spot strike rate vol ttm numObs aty asty oty
      = (0, { ctx with last_error := .invalidArg }) ∧
  mco_price_american R normal ctx spot strike rate vol ttm numSteps oty
      = (0, { ctx with last_error := .invalidArg }) ∧
  (mco_price_digital R normal ctx spot strike payout rate vol ttm dty
      oty).2 = ctx ∧
  (mco_price_barrier R normal ctx spot strike barrier rebate rate vol ttm
      numSteps bty oty).2 = ctx ∧
  (mco_price_lookback R normal ctx spot strike rate vol ttm numSteps sty
      oty).2 = ctx

/-- The per-step discount of `mco_lsm_american`:
`df = exp(-rate * dt)` with `dt = T/num_steps` (part_014:127-128). -/
def lsmDf (R : RealFuns) (rate ttm : ℚ) (numSteps : ℕ) : ℚ :=
  R.exp (-(rate * (ttm / (numSteps : ℚ))))

/-- The GBM path table of `mco_lsm_american` on a context. -/
def lsmPaths (R : RealFuns) (normal : NormalDraw) (ctx : Ctx)
    (spot rate volatility ttm : ℚ) (numSteps : ℕ) : ℕ → ℕ → ℚ :=
  lsmPathsOf
    (mco_gbm_simulate_path R normal
      (mco_gbm_path_init R spot rate volatility ttm numSteps))
    ctx.num_simulations ctx.rng

/-- Final cash-flow vector of `mco_lsm_american` on a context. -/
def lsmCf (R : RealFuns) (normal : NormalDraw) (ctx : Ctx)
    (spot strike rate volatility ttm : ℚ) (numSteps : ℕ) (ty : OptType) :
    ℕ → ℚ :=
  (lsmFinal (lsmPaths R normal ctx spot rate volatility ttm numSteps) strike
    ty (lsmDf R rate ttm numSteps) ctx.num_simulations numSteps).1

/-- Final exercise-step vector of `mco_lsm_american` on a context. -/
def lsmEt (R : RealFuns) (normal : NormalDraw) (ctx : Ctx)
    (spot strike rate volatility ttm : ℚ) (numSteps : ℕ) (ty : OptType) :
    ℕ → ℕ :=
  (lsmFinal (lsmPaths R normal ctx spot rate volatility ttm numSteps) strike
    ty (lsmDf R rate ttm numSteps) ctx.num_simulations numSteps).2

/-- Claim C3 as a predicate: every final LSM cash flow is the intrinsic
payoff at its recorded exercise step `s ∈ [1, num_steps]`, discounted by
the single-step factor `exp(-r·Δ)` exactly `s` times, and the price
returned by `mco_lsm_american` is the mean of those cash flows. -/
def lsmCashflowSpec (R : RealFuns) (normal : NormalDraw) (ctx : Ctx)
    (spot strike rate volatility ttm : ℚ) (numSteps : ℕ) (ty : OptType) :
    Prop :=
  (∀ i, 1 ≤ lsmEt R normal ctx spot strike rate volatility ttm numSteps ty i ∧
    lsmEt R normal ctx spot strike rate volatility ttm numSteps ty i ≤ numSteps ∧
    lsmCf R normal ctx spot strike rate volatility ttm numSteps ty i
      = mco_payoff
          (lsmPaths R normal ctx spot rate volatility ttm numSteps i
            (lsmEt R normal ctx spot strike rate volatility ttm numSteps ty i))
          strike ty
        * lsmDf R rate ttm numSteps
            ^ lsmEt R normal ctx spot strike rate volatility ttm numSteps ty i) ∧
  (mco_lsm_american R normal ctx spot strike rate volatility ttm numSteps
      ty).1
    = sumRange ctx.num_simulations
        (lsmCf R normal ctx spot strike rate volatility ttm numSteps ty)
        / (ctx.num_simulations : ℚ)

/-- Claim C5 as a predicate of the sample list and the stored expectation:
degenerate control variance returns the plain mean of X, and a perfectly
correlated control (x = z throughout) with non-degenerate variance returns
the stored expectation exactly. -/
def cvEstimateSpec (pairs : List (ℚ × ℚ)) (ez : ℚ) : Prop :=
  let st := mco_cv_addList (mco_cv_init ez) pairs
  (cvVarZ st < cvEps → mco_cv_estimate st = cvMeanX st) ∧
  ((∀ p ∈ pairs, p.1 = p.2) → cvEps ≤ cvVarZ st → mco_cv_estimate st = ez)

/-- Identity stand-in for the abstract transcendental functions. -/
def idRealFuns : RealFuns := ⟨id, id, id⟩

/-- A trivial concrete normal-draw function. -/
def constNormal : NormalDraw := fun r => (0, r)

/-- A concrete context with a single simulation path. -/
def ctxOne : Ctx :=
  ⟨1, 1, 0, 1, false, false, false, 0, 0, 0, 0, 0, ⟨1, 2, 3, 4⟩, .ok⟩

/-! ## Theorems -/

/-- Claim C9: for every 64-bit seed, `mco_rng_seed` produces a four-word
RNG state that is not all-zero. -/
theorem mco_rng_seed_nonzero (seed : ℕ) : ¬ rngAllZero (mco_rng_seed seed) := by
  have key : ∀ a b c d : ℕ,
      ¬ rngAllZero
        (if a = 0 ∧ b = 0 ∧ c = 0 ∧ d = 0 then ⟨1, b, c, d⟩ else ⟨a, b, c, d⟩) := by
    intro a b c d
    split_ifs with h
    · intro hz
      exact one_ne_zero hz.1
    · intro hz
      exact h ⟨hz.1, hz.2.1, hz.2.2.1, hz.2.2.2⟩
  exact key _ _ _ _

/-- Claim C6, counterexample: the last-error query on a null context does
not return a zero-valued default — it returns invalid-argument, whose
numeric value is 2. -/
theorem null_last_error_not_zero :
    mcoErrorCode (mco_ctx_last_error none) = 2 ∧
    mcoErrorCode (mco_ctx_last_error none) ≠ 0 := by
  decide

/-- Claim C6, amended: the getters for simulations, steps, seed, threads
and the antithetic flag return zero-valued defaults on a null context,
while the last-error query on a null context returns invalid-argument
(nonzero), not a zero default. -/
theorem null_context_reads :
    mco_get_simulations none = 0 ∧ mco_get_steps none = 0 ∧
    mco_get_seed none = 0 ∧ mco_get_threads none = 0 ∧
    mco_get_antithetic none = false ∧
    mco_ctx_last_error none = McoError.invalidArg := by
  decide

/-- Claim C7: for every Sobol state and every k, resetting, skipping k
points and drawing the next point yields the same output point and the
same internal state (count and integer vector) as resetting and making
k + 1 `next` calls, keeping the last. -/
theorem sobol_skip_then_next (s : Sobol) (k : ℕ) :
    mco_sobol_next (mco_sobol_skip (mco_sobol_reset s) k)
      = sobolNextsLast (mco_sobol_reset s) k := by
  have key : ∀ (k : ℕ) (t : Sobol),
      mco_sobol_next (mco_sobol_skip t k) = sobolNextsLast t k := by
    intro k
    induction k with
    | zero => intro t; rfl
    | succ k ih => intro t; exact ih (sobolStep t)
  exact key k (mco_sobol_reset s)

/-- The running minimum over vertices 0..numSteps is at most the terminal
vertex, and the running maximum at least the terminal vertex. -/
theorem lookback_minmax_bounds (path : ℕ → ℚ) (numSteps : ℕ) :
    (lookbackMinMax path numSteps).1 ≤ path numSteps ∧
    path numSteps ≤ (lookbackMinMax path numSteps).2 := by
  have step : ∀ (mm : ℚ × ℚ) (p : ℚ),
      (if p < mm.1 then p else mm.1) ≤ p ∧ p ≤ (if mm.2 < p then p else mm.2) := by
    intro mm p
    constructor
    · split_ifs with h
      · exact le_refl _
      · exact le_of_not_lt h
    · split_ifs with h
      · exact le_refl _
      · exact le_of_not_lt h
  cases numSteps with
  | zero =>
    constructor <;> simp [lookbackMinMax]
  | succ m =>
    unfold lookbackMinMax
    rw [List.range_succ, List.foldl_append, List.foldl_cons, List.foldl_nil]
    exact ⟨(step _ _).1, (step _ _).2⟩

/-- Claim C8: the floating-strike lookback payoff computed by
`mco_price_lookback` is non-negative for every path — both for the single
per-path payoff function and for the whole accumulated sum the pricer
divides to obtain its price. -/
theorem lookback_floating_nonneg :
    (∀ (path : ℕ → ℚ) (numSteps : ℕ) (strike : ℚ) (oty : OptType),
      0 ≤ mco_lookback_payoff path numSteps strike .floating oty) ∧
    (∀ (pathSim : Rng → (ℕ → ℚ) × Rng) (strike : ℚ) (numSteps : ℕ)
        (oty : OptType) (n : ℕ) (rng : Rng),
      0 ≤ (lookbackSum pathSim strike numSteps .floating oty n rng).1) := by
  have hpay : ∀ (path : ℕ → ℚ) (numSteps : ℕ) (strike : ℚ) (oty : OptType),
      0 ≤ mco_lookback_payoff path numSteps strike .floating oty := by
    intro path numSteps strike oty
    obtain ⟨h1, h2⟩ := lookback_minmax_bounds path numSteps
    cases oty with
    | call => simpa [mco_lookback_payoff] using sub_nonneg.mpr h1
    | put => simpa [mco_lookback_payoff] using sub_nonneg.mpr h2
  refine ⟨hpay, ?_⟩
  intro pathSim strike numSteps oty n
  induction n with
  | zero => intro rng; exact le_refl 0
  | succ n ih =>
    intro rng
    exact add_nonneg (hpay _ _ _ _) (ih _)

/-- The accumulated fields of `mco_cv_addList` are the starting fields
plus the corresponding sums over the sample list. -/
theorem cv_addList_fields (pairs : List (ℚ × ℚ)) : ∀ (st : CvStats),
    (mco_cv_addList st pairs).n = st.n + pairs.length ∧
    (mco_cv_addList st pairs).sumX = st.sumX + (pairs.map (fun p => p.1)).sum ∧
    (mco_cv_addList st pairs).sumZ = st.sumZ + (pairs.map (fun p => p.2)).sum ∧
    (mco_cv_addList st pairs).sumZZ
      = st.sumZZ + (pairs.map (fun p => p.2 * p.2)).sum ∧
    (mco_cv_addList st pairs).sumXZ
      = st.sumXZ + (pairs.map (fun p => p.1 * p.2)).sum ∧
    (mco_cv_addList st pairs).ez = st.ez := by
  induction pairs with
  | nil => intro st; simp [mco_cv_addList]
  | cons p l ih =>
    intro st
    obtain ⟨h1, h2, h3, h4, h5, h6⟩ := ih (mco_cv_add st p.1 p.2)
    have hcons : mco_cv_addList st (p :: l)
        = mco_cv_addList (mco_cv_add st p.1 p.2) l := rfl
    rw [hcons]
    refine ⟨?_, ?_, ?_, ?_, ?_, ?_⟩
    · rw [h1]
      simp [mco_cv_add]
      omega
    · rw [h2]
      simp [mco_cv_add]
      ring
    · rw [h3]
      simp [mco_cv_add]
      ring
    · rw [h4]
      simp [mco_cv_add]
      ring
    · rw [h5]
      simp [mco_cv_add]
      ring
    · rw [h6]
      simp [mco_cv_add]

/-- Unfolded form of `mco_cv_estimate` on a non-empty accumulator. -/
theorem mco_cv_estimate_eq (st : CvStats) (h : st.n ≠ 0) :
    mco_cv_estimate st
      = if cvVarZ st < cvEps then cvMeanX st
        else cvMeanX st
          - (st.sumXZ / (st.n : ℚ) - cvMeanX st * (st.sumZ / (st.n : ℚ)))
              / cvVarZ st * (st.sumZ / (st.n : ℚ) - st.ez) := by
  unfold mco_cv_estimate cvVarZ cvMeanX
  rw [if_neg h]

/-- Claim C5: on samples accumulated through `mco_cv_add`, the estimator
returns the plain mean of X when the control variance falls below 1e-12,
and returns the stored expectation E[Z] exactly when every sample pair has
x = z and the control variance is at least 1e-12. -/
theorem cv_estimate_correct (pairs : List (ℚ × ℚ)) (ez : ℚ)
    (hne : pairs ≠ []) : cvEstimateSpec pairs ez := by
  obtain ⟨h1, h2, h3, h4, h5, h6⟩ := cv_addList_fields pairs (mco_cv_init ez)
  unfold cvEstimateSpec
  set st := mco_cv_addList (mco_cv_init ez) pairs with hst
  have hn : st.n = pairs.length := by
    rw [h1]
    simp [mco_cv_init]
  have hn0 : st.n ≠ 0 := by
    rw [hn]
    intro h
    exact hne (List.length_eq_zero.mp h)
  constructor
  · intro hvar
    rw [mco_cv_estimate_eq st hn0, if_pos hvar]
  · intro hdiag hvar
    have hx : pairs.map (fun p => p.1) = pairs.map (fun p => p.2) :=
      List.map_congr_left hdiag
    have hxz : pairs.map (fun p => p.1 * p.2) = pairs.map (fun p => p.2 * p.2) :=
      List.map_congr_left (fun a ha => by rw [hdiag a ha])
    have hsx : st.sumX = st.sumZ := by
      rw [h2, h3, hx]
      simp [mco_cv_init]
    have hsxz : st.sumXZ = st.sumZZ := by
      rw [h5, h4, hxz]
      simp [mco_cv_init]
    have hez : st.ez = ez := by
      rw [h6]
      simp [mco_cv_init]
    have hvarne : cvVarZ st ≠ 0 := by
      refine ne_of_gt (lt_of_lt_of_le ?_ hvar)
      norm_num [cvEps]
    rw [mco_cv_estimate_eq st hn0, if_neg (not_lt.mpr hvar)]
    unfold cvMeanX
    rw [hsx, hsxz, hez]
    have hnum : st.sumZZ / (st.n : ℚ)
        - st.sumZ / (st.n : ℚ) * (st.sumZ / (st.n : ℚ)) = cvVarZ st := rfl
    rw [hnum, div_self hvarne, one_mul]
    ring

/-- Witness for claim C5 at the concrete sample list [(1,1),(2,2)] with
stored expectation 7. -/
theorem cv_estimate_witness :
    ([((1 : ℚ), (1 : ℚ)), (2, 2)] ≠ ([] : List (ℚ × ℚ))) ∧
    cvEstimateSpec [((1 : ℚ), (1 : ℚ)), (2, 2)] 7 :=
  ⟨by decide, cv_estimate_correct [((1 : ℚ), (1 : ℚ)), (2, 2)] 7 (by decide)⟩

/-- Peeling the first summand off a `sumRange`. -/
theorem sumRange_succ_left (n : ℕ) (f : ℕ → ℚ) :
    sumRange (n + 1) f = f 0 + sumRange n (fun i => f (i + 1)) := by
  unfold sumRange
  rw [List.range_succ_eq_map, List.map_cons, List.sum_cons, List.map_map]
  rfl

/-- Closed form of the antithetic pair loop: the sum is the sum over pair
indices of the payoffs at +Z and −Z of the i-th draw of the stream, and
the RNG is advanced by exactly one draw per pair. -/
theorem antithetic_sum_closed (normal : NormalDraw) (terminal : ℚ → ℚ)
    (strike : ℚ) (ty : OptType) : ∀ (k : ℕ) (rng : Rng),
    mco_antithetic_european_sum normal terminal strike ty k rng
      = (sumRange k (fun i =>
            mco_payoff (terminal (normSeq normal rng i)) strike ty +
            mco_payoff (terminal (-normSeq normal rng i)) strike ty),
          (fun r => (normal r).2)^[k] rng) := by
  intro k
  induction k with
  | zero =>
    intro rng
    simp [mco_antithetic_european_sum, sumRange]
  | succ k ih =>
    intro rng
    have hseq : ∀ i, normSeq normal (normal rng).2 i = normSeq normal rng (i + 1) := by
      intro i
      unfold normSeq
      rw [Function.iterate_succ_apply]
    rw [mco_antithetic_european_sum, ih ((normal rng).2)]
    rw [sumRange_succ_left]
    have hz0 : normSeq normal rng 0 = (normal rng).1 := by
      unfold normSeq
      rw [Function.iterate_zero_apply]
    refine Prod.ext ?_ ?_
    · show mco_payoff (terminal (normal rng).1) strike ty +
          mco_payoff (terminal (-(normal rng).1)) strike ty +
          sumRange k (fun i =>
            mco_payoff (terminal (normSeq normal (normal rng).2 i)) strike ty +
            mco_payoff (terminal (-normSeq normal (normal rng).2 i)) strike ty)
        = _
      simp only [hseq, hz0]
    · show (fun r => (normal r).2)^[k] (normal rng).2 = _
      rw [← Function.iterate_succ_apply]

/-- Claim C4: the antithetic European estimator forms `max(n/2, 1)` pairs,
consumes exactly one normal draw per pair, sums the payoffs at +Z and −Z,
and returns the discount times that sum divided by `2·pairs`. -/
theorem antithetic_european_spec (normal : NormalDraw) (terminal : ℚ → ℚ)
    (discount strike : ℚ) (ty : OptType) (n : ℕ) (rng : Rng) :
    mco_antithetic_european normal terminal discount strike ty n rng
      = (discount * (sumRange (max (n / 2) 1) (fun i =>
            mco_payoff (terminal (normSeq normal rng i)) strike ty +
            mco_payoff (terminal (-normSeq normal rng i)) strike ty)
            / ((2 * max (n / 2) 1 : ℕ) : ℚ)),
          (fun r => (normal r).2)^[max (n / 2) 1] rng) := by
  have hp : (if n / 2 = 0 then 1 else n / 2) = max (n / 2) 1 := by
    split_ifs with h <;> omega
  have hbody : mco_antithetic_european normal terminal discount strike ty n rng
      = (discount *
          ((mco_antithetic_european_sum normal terminal strike ty
              (if n / 2 = 0 then 1 else n / 2) rng).1
            / ((2 * (if n / 2 = 0 then 1 else n / 2) : ℕ) : ℚ)),
        (mco_antithetic_european_sum normal terminal strike ty
            (if n / 2 = 0 then 1 else n / 2) rng).2) := rfl
  rw [hbody, hp, antithetic_sum_closed]

/-- Length of the work-unit list built by `workInitGo`. -/
theorem workInitGo_length (simsPer rem : ℕ) : ∀ (k i start : ℕ) (rng : Rng),
    (workInitGo simsPer rem k i start rng).length = k := by
  intro k
  induction k with
  | zero => intro i start rng; rfl
  | succ k ih =>
    intro i start rng
    simp [workInitGo, ih]

/-- Element `j` of the work-unit list: start and end offsets are the
partial sums of the per-thread counts, and the RNG is the base jumped `j`
times. -/
theorem workInitGo_getD (simsPer rem : ℕ) : ∀ (k : ℕ) (j i start : ℕ)
    (rng : Rng), j < k →
    (workInitGo simsPer rem k i start rng).getD j defaultWork
      = ⟨mco_rng_jump^[j] rng, start + sumCount simsPer rem i j,
          start + sumCount simsPer rem i (j + 1), 0, 0⟩ := by
  intro k
  induction k with
  | zero =>
    intro j i start rng hj
    omega
  | succ k ih =>
    intro j i start rng hj
    cases j with
    | zero =>
      simp [workInitGo, sumCount, tcount, Nat.add_zero]
    | succ j =>
      have hjk : j < k := by omega
      have htail : (workInitGo simsPer rem (k + 1) i start rng).getD (j + 1) defaultWork
          = (workInitGo simsPer rem k (i + 1)
              (start + (simsPer + if i < rem then 1 else 0))
              (mco_rng_jump rng)).getD j defaultWork := rfl
      rw [htail, ih j (i + 1) _ _ hjk]
      have hiter : mco_rng_jump^[j] (mco_rng_jump rng) = mco_rng_jump^[j + 1] rng :=
        (Function.iterate_succ_apply mco_rng_jump j rng).symm
      have he1 : sumCount simsPer rem i (j + 1)
          = (simsPer + if i < rem then 1 else 0) + sumCount simsPer rem (i + 1) j := rfl
      have he2 : sumCount simsPer rem i (j + 2)
          = (simsPer + if i < rem then 1 else 0)
            + sumCount simsPer rem (i + 1) (j + 1) := rfl
      have hsum1 : start + (simsPer + if i < rem then 1 else 0)
            + sumCount simsPer rem (i + 1) j
          = start + sumCount simsPer rem i (j + 1) := by
        rw [he1, Nat.add_assoc]
      have hsum2 : start + (simsPer + if i < rem then 1 else 0)
            + sumCount simsPer rem (i + 1) (j + 1)
          = start + sumCount simsPer rem i (j + 2) := by
        rw [he2, Nat.add_assoc]
      rw [hiter, hsum1, hsum2]

/-- Closed form for the partial count sums: `j` threads starting at index
`i` get `j·simsPer` plus one extra for each index still below the
remainder. -/
theorem sumCount_formula (simsPer rem : ℕ) : ∀ (j i : ℕ),
    sumCount simsPer rem i j = j * simsPer + min (rem - i) j := by
  intro j
  induction j with
  | zero => intro i; simp [sumCount]
  | succ j ih =>
    intro i
    rw [sumCount, ih (i + 1), tcount, Nat.succ_mul]
    split_ifs with h <;> omega

/-- Claim C1: the work units produced by `mco_thread_work_init` partition
[0, N) into contiguous half-open, pairwise disjoint ranges, and unit `i`
holds the base RNG jumped exactly `i` times. -/
theorem thread_work_init_partition (T N : ℕ) (base : Rng) (hT : 1 ≤ T) :
    threadPartitionSpec T N base := by
  unfold threadPartitionSpec workUnit mco_thread_work_init
  set spt := N / T with hspt
  set rem := N % T with hrem
  have hgd : ∀ j, j < T →
      (workInitGo spt rem T 0 0 base).getD j defaultWork
        = ⟨mco_rng_jump^[j] base, sumCount spt rem 0 j,
            sumCount spt rem 0 (j + 1), 0, 0⟩ := by
    intro j hj
    rw [workInitGo_getD spt rem T j 0 0 base hj]
    simp
  have hmono : ∀ a b, a ≤ b → sumCount spt rem 0 a ≤ sumCount spt rem 0 b := by
    intro a b hab
    rw [sumCount_formula, sumCount_formula]
    have : a * spt ≤ b * spt := Nat.mul_le_mul_right spt hab
    omega
  have htotal : sumCount spt rem 0 T = N := by
    rw [sumCount_formula]
    have hrlt : rem < T := by
      rw [hrem]
      exact Nat.mod_lt N (by omega)
    have hdm : T * spt + rem = N := by
      rw [hspt, hrem]
      exact Nat.div_add_mod N T
    omega
  refine ⟨workInitGo_length spt rem T 0 0 base, ?_, ?_, ?_, ?_, ?_, ?_⟩
  · rw [hgd 0 (by omega)]
    simp [sumCount]
  · intro j hj
    rw [hgd (j + 1) hj, hgd j (by omega)]
  · rw [hgd (T - 1) (by omega)]
    have : T - 1 + 1 = T := by omega
    rw [this, htotal]
  · intro i j hij hj
    rw [hgd i (by omega), hgd j hj]
    exact hmono (i + 1) j hij
  · intro m
    constructor
    · intro hm
      have key : ∀ (t m' : ℕ), m' < sumCount spt rem 0 t →
          ∃ j, j < t ∧ sumCount spt rem 0 j ≤ m' ∧ m' < sumCount spt rem 0 (j + 1) := by
        intro t
        induction t with
        | zero =>
          intro m' hm'
          simp [sumCount] at hm'
        | succ t iht =>
          intro m' hm'
          by_cases hcase : m' < sumCount spt rem 0 t
          · obtain ⟨j, hj, hj1, hj2⟩ := iht m' hcase
            exact ⟨j, by omega, hj1, hj2⟩
          · exact ⟨t, by omega, by omega, hm'⟩
      obtain ⟨j, hj, hj1, hj2⟩ := key T m (by rw [htotal]; exact hm)
      refine ⟨j, hj, ?_, ?_⟩
      · rw [hgd j hj]
        exact hj1
      · rw [hgd j hj]
        exact hj2
    · rintro ⟨j, hj, hj1, hj2⟩
      rw [hgd j hj] at hj1 hj2
      dsimp only at hj1 hj2
      have hle : sumCount spt rem 0 (j + 1) ≤ sumCount spt rem 0 T :=
        hmono _ _ (by omega)
      omega
  · intro j hj
    rw [hgd j hj]

/-- Witness for claim C1 at three threads, seven simulations, and a
concrete base RNG state. -/
theorem thread_work_init_partition_witness :
    1 ≤ 3 ∧ threadPartitionSpec 3 7 ⟨1, 2, 3, 4⟩ :=
  ⟨by decide, thread_work_init_partition 3 7 ⟨1, 2, 3, 4⟩ (by decide)⟩

/-- Pointwise dichotomy of one LSM backward iteration: each path either
keeps its (discounted) cash flow and its exercise step, or has both
replaced by the immediate exercise value and the current step. -/
theorem lsmIter_cases (paths : ℕ → ℕ → ℚ) (strike : ℚ) (ty : OptType)
    (df : ℚ) (n s : ℕ) (cf : ℕ → ℚ) (et : ℕ → ℕ) (i : ℕ) :
    ((lsmIter paths strike ty df n s cf et).1 i = cf i * df ∧
     (lsmIter paths strike ty df n s cf et).2 i = et i) ∨
    ((lsmIter paths strike ty df n s cf et).1 i
        = mco_payoff (paths i s) strike ty ∧
     (lsmIter paths strike ty df n s cf et).2 i = s) := by
  unfold lsmIter
  split
  · left
    exact ⟨rfl, rfl⟩
  · split
    · left
      exact ⟨rfl, rfl⟩
    · rename_i co _
      by_cases hc : i ∈ lsmItmList paths strike ty n s ∧
          lsmCont paths strike co s i < mco_payoff (paths i s) strike ty
      · right
        constructor <;> simp [hc]
      · left
        constructor <;> simp [hc]

/-- Invariant of the LSM backward loop: at each point, a path's cash flow
is either its incoming cash flow discounted once per processed step with
its exercise step untouched, or the immediate payoff of some visited step
`t ∈ [1, s]` discounted `t - 1` times with exercise step `t`. -/
theorem lsmLoop_cases (paths : ℕ → ℕ → ℚ) (strike : ℚ) (ty : OptType)
    (df : ℚ) (n : ℕ) : ∀ (s : ℕ) (cf : ℕ → ℚ) (et : ℕ → ℕ) (i : ℕ),
    ((lsmLoop paths strike ty df n s cf et).1 i = cf i * df ^ s ∧
     (lsmLoop paths strike ty df n s cf et).2 i = et i) ∨
    (∃ t, 1 ≤ t ∧ t ≤ s ∧
      (lsmLoop paths strike ty df n s cf et).1 i
        = mco_payoff (paths i t) strike ty * df ^ (t - 1) ∧
      (lsmLoop paths strike ty df n s cf et).2 i = t) := by
  intro s
  induction s with
  | zero =>
    intro cf et i
    left
    constructor
    · simp [lsmLoop]
    · rfl
  | succ s ih =>
    intro cf et i
    have hL : lsmLoop paths strike ty df n (s + 1) cf et
        = lsmLoop paths strike ty df n s
            (lsmIter paths strike ty df n (s + 1) cf et).1
            (lsmIter paths strike ty df n (s + 1) cf et).2 := rfl
    rw [hL]
    have hstep := lsmIter_cases paths strike ty df n (s + 1) cf et i
    have hrec := ih (lsmIter paths strike ty df n (s + 1) cf et).1
      (lsmIter paths strike ty df n (s + 1) cf et).2 i
    rcases hrec with ⟨g1, g2⟩ | ⟨t, ht1, ht2, g1, g2⟩
    · rcases hstep with ⟨h1, h2⟩ | ⟨h1, h2⟩
      · left
        constructor
        · rw [g1, h1]
          ring
        · rw [g2, h2]
      · right
        refine ⟨s + 1, by omega, by omega, ?_, by rw [g2, h2]⟩
        rw [g1, h1]
        simp
    · right
      exact ⟨t, ht1, by omega, g1, g2⟩

/-- Every final cash flow and exercise step of `lsmFinal` on an arbitrary
path table: the cash flow is the intrinsic payoff at the recorded
exercise step `s ∈ [1, num_steps]` discounted exactly `s` times. -/
theorem lsmFinal_cases (paths : ℕ → ℕ → ℚ) (strike : ℚ) (ty : OptType)
    (df : ℚ) (n numSteps : ℕ) (hS : 1 ≤ numSteps) :
    ∀ i, 1 ≤ (lsmFinal paths strike ty df n numSteps).2 i ∧
      (lsmFinal paths strike ty df n numSteps).2 i ≤ numSteps ∧
      (lsmFinal paths strike ty df n numSteps).1 i
        = mco_payoff
            (paths i ((lsmFinal paths strike ty df n numSteps).2 i)) strike ty
          * df ^ (lsmFinal paths strike ty df n numSteps).2 i := by
  unfold lsmFinal
  intro i
  have hcase := lsmLoop_cases paths strike ty df n (numSteps - 1)
    (fun i => mco_payoff (paths i numSteps) strike ty) (fun _ => numSteps) i
  have hS1 : numSteps - 1 + 1 = numSteps := by omega
  rcases hcase with ⟨g1, g2⟩ | ⟨t, ht1, ht2, g1, g2⟩
  · refine ⟨by rw [g2] at *; exact hS, by rw [g2], ?_⟩
    show (lsmLoop _ strike ty df _ (numSteps - 1) _ _).1 i * df = _
    rw [g1, g2]
    rw [mul_assoc, ← pow_succ, hS1]
  · refine ⟨by rw [g2] at *; exact ht1, by rw [g2] at *; omega, ?_⟩
    show (lsmLoop _ strike ty df _ (numSteps - 1) _ _).1 i * df = _
    rw [g1, g2]
    have ht : t - 1 + 1 = t := by omega
    rw [mul_assoc, ← pow_succ, ht]

/-- Claim C3: with S = num_steps ≥ 1, every final cash flow of
`mco_lsm_american` is the intrinsic payoff at its exercise step `s`,
multiplied by the single-step discount exp(-r·Δ) exactly `s` times
(s = S for a path never replaced), and the returned price is the mean of
these cash flows. -/
theorem lsm_american_cashflows (R : RealFuns) (normal : NormalDraw)
    (ctx : Ctx) (spot strike rate volatility ttm : ℚ) (numSteps : ℕ)
    (ty : OptType) (hS : 1 ≤ numSteps) :
    lsmCashflowSpec R normal ctx spot strike rate volatility ttm numSteps
      ty := by
  unfold lsmCashflowSpec lsmCf lsmEt
  constructor
  · exact lsmFinal_cases
      (lsmPaths R normal ctx spot rate volatility ttm numSteps) strike ty
      (lsmDf R rate ttm numSteps) ctx.num_simulations numSteps hS
  · have hne : ¬ numSteps = 0 := by omega
    unfold mco_lsm_american lsmPaths lsmDf
    rw [if_neg hne]

/-- Witness for claim C3 at concrete kernels, one path and one time
step. -/
theorem lsm_american_cashflows_witness :
    1 ≤ 1 ∧ lsmCashflowSpec idRealFuns constNormal ctxOne 2 1 0 0 1 1 .call :=
  ⟨by decide,
    lsm_american_cashflows idRealFuns constNormal ctxOne 2 1 0 0 1 1 .call
      (by decide)⟩

/-- Claim C2, counterexample: `mco_price_digital` called with an invalid
spot (−1 ≤ 0) does not set the last-error slot to invalid-argument — the
context comes back with its error slot untouched. -/
theorem digital_no_validation :
    ((-1 : ℚ) ≤ 0 ∨ (100 : ℚ) ≤ 0 ∨ (1 : ℚ) / 5 < 0 ∨ (1 : ℚ) < 0) ∧
    (mco_price_digital idRealFuns constNormal ctxOne (-1) 100 1 (1 / 20)
        (1 / 5) 1 .cash .call).2.last_error ≠ McoError.invalidArg := by
  constructor
  · left
    norm_num
  · show ctxOne.last_error ≠ McoError.invalidArg
    decide

/-- Claim C2, amended: the European, Asian and American pricers reject
spot ≤ 0, strike ≤ 0, volatility < 0 or maturity < 0 by setting
invalid-argument and returning zero (the Asian pricer only after its
zero-observation guard), while the digital, barrier and lookback pricers
perform no numeric validation and return the context untouched. -/
theorem pricer_validation (R : RealFuns) (normal : NormalDraw) (ctx : Ctx)
    (spot strike payout barrier rebate rate vol ttm : ℚ)
    (numObs numSteps : ℕ) (dty : DigitalType) (bty : BarrierStyle)
    (sty : LookStrike) (aty : AsianType) (asty : AsianStrike) (oty : OptType)
    (hinv : spot ≤ 0 ∨ strike ≤ 0 ∨ vol < 0 ∨ ttm < 0) (hobs : numObs ≠ 0) :
    validationSpec R normal ctx spot strike payout barrier rebate
      rate vol ttm numObs numSteps dty bty sty aty asty oty := by
  unfold validationSpec
  refine ⟨?_, ?_, ?_, rfl, ?_, ?_⟩
  · unfold mco_price_european
    rw [if_pos hinv]
  · unfold mco_price_asian
    rw [if_neg hobs, if_pos hinv]
  · unfold mco_price_american
    rw [if_pos hinv]
  · unfold mco_price_barrier
    split <;> rfl
  · unfold mco_price_lookback
    split <;> rfl

/-- Witness for claim C2 at concrete invalid inputs (spot = −2) and a
nonzero observation count. -/
theorem pricer_validation_witness :
    (((-2 : ℚ) ≤ 0 ∨ (100 : ℚ) ≤ 0 ∨ (1 : ℚ) / 5 < 0 ∨ (1 : ℚ) < 0) ∧
      (12 : ℕ) ≠ 0) ∧
    validationSpec idRealFuns constNormal ctxOne
      (-2) 100 1 80 0 (1 / 20) (1 / 5) 1 12 10 .cash .downOut .floating
      .arithmetic .fixedStrike .call :=
  ⟨⟨Or.inl (by norm_num), by decide⟩,
    pricer_validation idRealFuns constNormal ctxOne
      (-2) 100 1 80 0 (1 / 20) (1 / 5) 1 12 10 .cash .downOut .floating
      .arithmetic .fixedStrike .call (Or.inl (by norm_num)) (by decide)⟩

/-- Claim C10: the digital, barrier, Asian, lookback and LSM-American
pricers leave every context field except the last-error slot unchanged
(in particular the master RNG is not advanced), and a second call with
identical arguments on the returned context produces the same price. -/
theorem pricer_frame_determinism (R : RealFuns) (normal : NormalDraw)
    (ctx : Ctx) (spot strike payout barrier rebate rate vol ttm : ℚ)
    (numObs numSteps : ℕ) (dty : DigitalType) (bty : BarrierStyle)
    (sty : LookStrike) (aty : AsianType) (asty : AsianStrike)
    (oty : OptType) :
    (ctxFrame ctx
        (mco_price_digital R normal ctx spot strike payout rate vol ttm dty oty).2 ∧
      (mco_price_digital R normal
          (mco_price_digital R normal ctx spot strike payout rate vol ttm dty oty).2
          spot strike payout rate vol ttm dty oty).1
        = (mco_price_digital R normal ctx spot strike payout rate vol ttm dty oty).1) ∧
    (ctxFrame ctx
        (mco_price_barrier R normal ctx spot strike barrier rebate rate vol
          ttm numSteps bty oty).2 ∧
      (mco_price_barrier R normal
          (mco_price_barrier R normal ctx spot strike barrier rebate rate vol
            ttm numSteps bty oty).2
          spot strike barrier rebate rate vol ttm numSteps bty oty).1
        = (mco_price_barrier R normal ctx spot strike barrier rebate rate vol
            ttm numSteps bty oty).1) ∧
    (ctxFrame ctx
        (mco_price_asian R normal ctx spot strike rate vol ttm numObs aty asty
          oty).2 ∧
      (mco_price_asian R normal
          (mco_price_asian R normal ctx spot strike rate vol ttm numObs aty asty
            oty).2
          spot strike rate vol ttm numObs aty asty oty).1
        = (mco_price_asian R normal ctx spot strike rate vol ttm numObs aty asty
            oty).1) ∧
    (ctxFrame ctx
        (mco_price_lookback R normal ctx spot strike rate vol ttm numSteps sty
          oty).2 ∧
      (mco_price_lookback R normal
          (mco_price_lookback R normal ctx spot strike rate vol ttm numSteps sty
            oty).2
          spot strike rate vol ttm numSteps sty oty).1
        = (mco_price_lookback R normal ctx spot strike rate vol ttm numSteps sty
            oty).1) ∧
    (ctxFrame ctx (mco_lsm_american R normal ctx spot strike rate vol ttm numSteps oty).2 ∧
      (mco_lsm_american R normal
          (mco_lsm_american R normal ctx spot strike rate vol ttm numSteps oty).2
          spot strike rate vol ttm numSteps oty).1
        = (mco_lsm_american R normal ctx spot strike rate vol ttm numSteps oty).1) := by
  have hrefl : ∀ c : Ctx, ctxFrame c c := by
    intro c
    exact ⟨rfl, rfl, rfl, rfl, rfl, rfl, rfl, rfl, rfl, rfl, rfl, rfl, rfl⟩
  have herr : ∀ (c : Ctx) (e : McoError),
      ctxFrame c { c with last_error := e } := by
    intro c e
    exact ⟨rfl, rfl, rfl, rfl, rfl, rfl, rfl, rfl, rfl, rfl, rfl, rfl, rfl⟩
  have hdig_price : ∀ c c' : Ctx, ctxFrame c c' →
      (mco_price_digital R normal c' spot strike payout rate vol ttm dty oty).1
        = (mco_price_digital R normal c spot strike payout rate vol ttm dty oty).1 := by
    intro c c' hf
    obtain ⟨h1, h2, h3, h4, h5, h6, h7, h8, h9, h10, h11, h12, h13⟩ := hf
    simp only [mco_price_digital, h1, h13]
  have hbar_price : ∀ c c' : Ctx, ctxFrame c c' →
      (mco_price_barrier R normal c' spot strike barrier rebate rate vol ttm
          numSteps bty oty).1
        = (mco_price_barrier R normal c spot strike barrier rebate rate vol
            ttm numSteps bty oty).1 := by
    intro c c' hf
    obtain ⟨h1, h2, h3, h4, h5, h6, h7, h8, h9, h10, h11, h12, h13⟩ := hf
    simp only [mco_price_barrier, h1, h13]
    split
    · rfl
    · rfl
  have hasi_price : ∀ c c' : Ctx, ctxFrame c c' →
      (mco_price_asian R normal c' spot strike rate vol ttm numObs aty asty oty).1
        = (mco_price_asian R normal c spot strike rate vol ttm numObs aty asty
            oty).1 := by
    intro c c' hf
    obtain ⟨h1, h2, h3, h4, h5, h6, h7, h8, h9, h10, h11, h12, h13⟩ := hf
    simp only [mco_price_asian, h1, h13]
    split
    · rfl
    · split
      · rfl
      · rfl
  have hloo_price : ∀ c c' : Ctx, ctxFrame c c' →
      (mco_price_lookback R normal c' spot strike rate vol ttm numSteps sty oty).1
        = (mco_price_lookback R normal c spot strike rate vol ttm numSteps sty
            oty).1 := by
    intro c c' hf
    obtain ⟨h1, h2, h3, h4, h5, h6, h7, h8, h9, h10, h11, h12, h13⟩ := hf
    simp only [mco_price_lookback, h1, h13]
    split
    · rfl
    · rfl
  have hlsm_price : ∀ c c' : Ctx, ctxFrame c c' →
      (mco_lsm_american R normal c' spot strike rate vol ttm numSteps oty).1
        = (mco_lsm_american R normal c spot strike rate vol ttm numSteps oty).1 := by
    intro c c' hf
    obtain ⟨h1, h2, h3, h4, h5, h6, h7, h8, h9, h10, h11, h12, h13⟩ := hf
    simp only [mco_lsm_american, h1, h13]
    split
    · rfl
    · rfl
  have hdig_frame : ctxFrame ctx
      (mco_price_digital R normal ctx spot strike payout rate vol ttm dty oty).2 :=
    hrefl ctx
  have hbar_frame : ctxFrame ctx
      (mco_price_barrier R normal ctx spot strike barrier rebate rate vol ttm
        numSteps bty oty).2 := by
    unfold mco_price_barrier
    split
    · exact hrefl ctx
    · exact hrefl ctx
  have hasi_frame : ctxFrame ctx
      (mco_price_asian R normal ctx spot strike rate vol ttm numObs aty asty
        oty).2 := by
    unfold mco_price_asian
    split
    · exact hrefl ctx
    · split
      · exact herr ctx _
      · exact hrefl ctx
  have hloo_frame : ctxFrame ctx
      (mco_price_lookback R normal ctx spot strike rate vol ttm numSteps sty
        oty).2 := by
    unfold mco_price_lookback
    split
    · exact hrefl ctx
    · exact hrefl ctx
  have hlsm_frame : ctxFrame ctx
      (mco_lsm_american R normal ctx spot strike rate vol ttm numSteps oty).2 := by
    unfold mco_lsm_american
    split
    · exact hrefl ctx
    · exact hrefl ctx
  exact ⟨⟨hdig_frame, hdig_price ctx _ hdig_frame⟩,
    ⟨hbar_frame, hbar_price ctx _ hbar_frame⟩,
    ⟨hasi_frame, hasi_price ctx _ hasi_frame⟩,
    ⟨hloo_frame, hloo_price ctx _ hloo_frame⟩,
    ⟨hlsm_frame, hlsm_price ctx _ hlsm_frame⟩⟩

end MCPricing
